import Mathlib

/-
  Verification of the async-class method wrapper (src/index.js).

  The embedding models the current version of the module (the one exporting
  wrap / wrapStaticMethods / wrapInstanceMethods with an options layer):

    - conformOptions   (src/index.js lines 81-104)
    - cloneOptions     (lines 112-118)
    - asyncWrapCondition (lines 127-129)
    - wrapFunctions    (lines 131-147)
    - _actualMethodKeys (lines 149-156)
    - wrap / wrapStaticMethods / wrapInstanceMethods (lines 17-68)

  JavaScript objects are modelled as association lists from property name to a
  property slot (enumerability flag plus descriptor).  Machine-level JS notions
  are modelled only as far as the code observes them: truthiness, typeof,
  instanceof Array / Date, descriptor get/set slots, and function values.
-/

set_option autoImplicit false

namespace AsyncClass

/-- Outcome of invoking a JS function: a synchronous return of a plain value,
a synchronous throw, or the return of a deferred-value handle (promise) that
settles to `Except.ok` (resolved) or `Except.error` (rejected).  Values and
error payloads are abstracted as naturals. -/
inductive CallResult where
  | ret (v : Nat)
  | thrown (e : Nat)
  | deferred (r : Except Nat Nat)

/-- Modelled from the spec: the body of a generator-style method as the
coroutine driver observes it — it either returns, raises, or yields a
deferred value and continues with the value that deferred value resolves to
(spec section 4.1 step 5 and the glossary entry for coroutine-driving
transform).  Generator internals are not in src/. -/
inductive GenBody where
  | ret (v : Nat)
  | fail (e : Nat)
  | yieldp (p : Except Nat Nat) (k : Nat → GenBody)

/-- Modelled from the spec: the coroutine driver "repeatedly resumes the
generator, feeding it the resolved value of anything it yields that is itself
a deferred-value handle, and settling a returned deferred-value handle with
the generator's final return value, or rejecting it if the generator raises"
(spec section 4.1 step 5). -/
def driveGen : GenBody → Except Nat Nat
  | GenBody.ret v => Except.ok v
  | GenBody.fail e => Except.error e
  | GenBody.yieldp (Except.ok v) k => driveGen (k v)
  | GenBody.yieldp (Except.error e) _ => Except.error e

/-- A JS function value.  `id` is an abstract object identity used to state
reference-equality properties; `isGenerator` models
`fn.constructor.name === "GeneratorFunction"`; `call` gives the behaviour of a
plain invocation; `gen` gives the generator body produced when the function is
invoked as a generator. -/
structure JsFunc where
  id : Nat
  isGenerator : Bool
  call : Nat → CallResult
  gen : Nat → GenBody

/-- A JS value as far as the wrapper observes it: a function, or anything
else (abstracted, with a tag so distinct non-function values stay distinct). -/
inductive JsVal where
  | func (f : JsFunc)
  | nonfunc (tag : Nat)

/-- A property descriptor: either a data property holding a value, or an
accessor property.  For an accessor, `get` holds the value the getter would
produce (`none` = no getter, reading gives undefined) and `set` records
whether a setter is present — the code only tests presence of get/set and
(for candidates) the typeof of the read value. -/
inductive PropDesc where
  | data (v : JsVal)
  | accessor (get : Option JsVal) (set : Bool)

/-- One own-property slot: its enumerability flag and its descriptor.
`Object.getOwnPropertyNames` sees the slot regardless of `enumerable`. -/
structure PropAttr where
  enumerable : Bool
  desc : PropDesc

/-- A Target (the class, or its prototype): its own-property table, as an
association list in enumeration order.  Inherited properties are not part of
a Target, matching `Object.getOwnPropertyNames`. -/
def Target : Type := List (String × PropAttr)

/-- `Object.getOwnPropertyDescriptor(target, key)` — first slot with the key. -/
def getProp : Target → String → Option PropAttr
  | [], _ => none
  | (k, a) :: rest, key => if k = key then some a else getProp rest key

/-- `target[key] = v` — updates the value of an existing data property in
place (preserving its enumerability), appends a fresh enumerable data
property if the key is absent, and leaves an accessor slot unchanged (the
assignment would invoke the setter, whose effect is outside the model; the
wrapper never assigns to accessor keys since they are filtered out). -/
def setProp : Target → String → JsVal → Target
  | [], key, v => [(key, { enumerable := true, desc := PropDesc.data v })]
  | (k, a) :: rest, key, v =>
    if k = key then
      (k, match a.desc with
          | PropDesc.data _ => { a with desc := PropDesc.data v }
          | PropDesc.accessor g s => { a with desc := PropDesc.accessor g s }) :: rest
    else (k, a) :: setProp rest key v

/-- `propertyDescriptor.get` is present (truthy). -/
def hasGetter : PropDesc → Bool
  | PropDesc.data _ => false
  | PropDesc.accessor g _ => g.isSome

/-- `propertyDescriptor.set` is present (truthy). -/
def hasSetter : PropDesc → Bool
  | PropDesc.data _ => false
  | PropDesc.accessor _ s => s

/-- The value `target[key]` evaluates to: the stored value for a data
property, the getter's value for an accessor (`none` = undefined). -/
def propRead : PropDesc → Option JsVal
  | PropDesc.data v => some v
  | PropDesc.accessor g _ => g

/-- `typeof target[key] === "function"`. -/
def isFuncVal : Option JsVal → Bool
  | some (JsVal.func _) => true
  | _ => false

/-- The own-property names of a JS object are unique; proofs about lookups
after the rewrite pass assume this. -/
abbrev nodupKeys (t : Target) : Prop := (t.map Prod.fst).Nodup

/-- Modelled from the spec: bluebird's `Promise.method` (the default plain
transformer), an external dependency not under src/.  "Wraps the original
callable so that calling it always yields a deferred-value handle —
synchronous return values resolve that handle, and synchronously thrown
errors reject it, rather than propagating as an immediate exception" (spec
section 4.1 step 6).  The result is an ordinary (non-generator) function. -/
def promiseMethod (f : JsFunc) : JsFunc :=
  { id := f.id
    isGenerator := false
    call := fun x =>
      match f.call x with
      | CallResult.ret v => CallResult.deferred (Except.ok v)
      | CallResult.thrown e => CallResult.deferred (Except.error e)
      | CallResult.deferred r => CallResult.deferred r
    gen := f.gen }

/-- Modelled from the spec: bluebird's `Promise.coroutine` (the default
generator transformer), an external dependency not under src/.  Invoking the
wrapped function returns a deferred-value handle settling to the result of
driving the generator (spec section 4.1 step 5).  The result is an ordinary
(non-generator) function. -/
def promiseCoroutine (f : JsFunc) : JsFunc :=
  { id := f.id
    isGenerator := false
    call := fun x => CallResult.deferred (driveGen (f.gen x))
    gen := f.gen }

/-- An element of a methodNames array.  `indexOf(key)` with a string `key`
matches an element exactly when the element is that string; non-string
elements never match and are kept abstract. -/
inductive ArrElem where
  | str (s : String)
  | nonstr (tag : Nat)
deriving DecidableEq

/-- The `methodNames` slot of a raw options object: absent (undefined), an
array, or any other value, of which the code only observes truthiness
(`junk false` covers null and other falsy values, `junk true` truthy
non-array values). -/
inductive MNField where
  | absent
  | arr (elems : List ArrElem)
  | junk (truthy : Bool)

/-- A function-expecting slot (`wrapper` / `asyncWrapper` /
`asyncWrapCondition`) of a raw options object: absent (undefined), a function,
or any other value, of which the code only observes truthiness (`junk false`
covers null and other falsy values, `junk true` truthy non-function values). -/
inductive FnField (α : Type) where
  | absent
  | fn (f : α)
  | junk (truthy : Bool)

/-- A raw options object as passed by the caller (fields not recognized by
the code are irrelevant and omitted from the model). -/
structure OptionsObj where
  methodNames : MNField
  wrapper : FnField (JsFunc → JsFunc)
  asyncWrapper : FnField (JsFunc → JsFunc)
  asyncWrapCondition : FnField (String → Target → Bool → Bool)

/-- The empty object `{}`. -/
def emptyOptionsObj : OptionsObj :=
  { methodNames := MNField.absent
    wrapper := FnField.absent
    asyncWrapper := FnField.absent
    asyncWrapCondition := FnField.absent }

/-- A JS value in an argument position of wrap / wrapStaticMethods /
wrapInstanceMethods: the code observes truthiness, `typeof`,
`instanceof Array`, `instanceof Date`, and (for plain objects) the recognized
option fields. -/
inductive JSArg where
  | undef
  | nullv
  | strv (s : String)
  | numv (n : Int)
  | boolv (b : Bool)
  | date
  | arr (elems : List ArrElem)
  | obj (o : OptionsObj)
  | funcv

/-- JS truthiness of an argument ("" and 0 are falsy; NaN is not modelled). -/
def truthy : JSArg → Bool
  | JSArg.undef => false
  | JSArg.nullv => false
  | JSArg.strv s => !(s = "")
  | JSArg.numv n => !(n = 0)
  | JSArg.boolv b => b
  | JSArg.date => true
  | JSArg.arr _ => true
  | JSArg.obj _ => true
  | JSArg.funcv => true

/-- `x instanceof Array`. -/
def isArray : JSArg → Bool
  | JSArg.arr _ => true
  | _ => false

/-- `x instanceof Date`. -/
def isDate : JSArg → Bool
  | JSArg.date => true
  | _ => false

/-- `typeof x === "object"` (null, arrays, dates and plain objects). -/
def typeofIsObject : JSArg → Bool
  | JSArg.nullv => true
  | JSArg.date => true
  | JSArg.arr _ => true
  | JSArg.obj _ => true
  | _ => false

/-- The options value after `conformOptions` has validated it and filled in
defaults; each field is `none` when the post-validation slot is falsy
(undefined, null, or other falsy junk), which is exactly what `wrapFunctions`
tests before using it. -/
structure ConformedOptions where
  methodNames : Option (List ArrElem)
  wrapper : Option (JsFunc → JsFunc)
  asyncWrapper : Option (JsFunc → JsFunc)
  asyncWrapCondition : Option (String → Target → Bool → Bool)

/-- Truthiness of a methodNames slot (arrays, even empty ones, are truthy). -/
def mnTruthy : MNField → Bool
  | MNField.absent => false
  | MNField.arr _ => true
  | MNField.junk t => t

/-- `slot instanceof Array`. -/
def mnIsArray : MNField → Bool
  | MNField.arr _ => true
  | _ => false

/-- The conformed view of a validated methodNames slot: the array if there is
one, `none` for undefined or falsy junk (truthy junk was rejected). -/
def mnToOption : MNField → Option (List ArrElem)
  | MNField.arr es => some es
  | _ => none

/-- Truthiness of a function-expecting slot. -/
def fnTruthy {α : Type} : FnField α → Bool
  | FnField.absent => false
  | FnField.fn _ => true
  | FnField.junk t => t

/-- `typeof slot === "function"`. -/
def fnIsFn {α : Type} : FnField α → Bool
  | FnField.fn _ => true
  | _ => false

/-- The conformed view of a validated function slot: the function if there is
one, `none` for null or falsy junk (truthy junk was rejected, undefined was
replaced by the default). -/
def fnToOption {α : Type} : FnField α → Option α
  | FnField.fn f => some f
  | _ => none

/-- `if (slot === undefined) slot = dflt` (src/index.js lines 94, 97, 100). -/
def withDefault {α : Type} (f : FnField α) (dflt : α) : FnField α :=
  match f with
  | FnField.absent => FnField.fn dflt
  | x => x

/-- The truthy positional methodNames argument viewed as an options-object
slot (`options.methodNames = methodNames`, src/index.js line 91); only
reached when the argument is truthy. -/
def toMNField : JSArg → MNField
  | JSArg.arr es => MNField.arr es
  | _ => MNField.junk true

/-- cloneOptions (src/index.js lines 112-118): shallow copy of the recognized
fields; in the pure model this is a value copy. -/
def cloneOptions (options : OptionsObj) : OptionsObj :=
  { methodNames := options.methodNames
    wrapper := options.wrapper
    asyncWrapper := options.asyncWrapper
    asyncWrapCondition := options.asyncWrapCondition }

/-- `s.endsWith(suffix)`: the literal suffix test, computed on the
underlying character list (the built-in String.endsWith does not reduce in
the kernel, so it cannot be used in an executable embedding). -/
def strEndsWith (s suffix : String) : Bool :=
  List.isSuffixOf suffix.data s.data

/-- `s.startsWith(prefixStr)`: the literal prefix test, computed on the
underlying character list. -/
def strStartsWith (s prefixStr : String) : Bool :=
  List.isPrefixOf prefixStr.data s.data

/-- asyncWrapCondition (src/index.js lines 127-129): the default naming
predicate, `key.endsWith("Async")`. -/
def asyncWrapCondition (key : String) : Bool :=
  strEndsWith key "Async"

/-- The default naming predicate as stored into the options: the source
stores the one-parameter `asyncWrapCondition` and calls it with
`(key, target, isStatic)` (line 137); JS ignores the extra arguments. -/
def defaultWrapCondition : String → Target → Bool → Bool :=
  fun key _ _ => asyncWrapCondition key

/-- Lines 82-85 of conformOptions: when no options value was given and the
methodNames argument is truthy but not an array, it is treated as the options
argument (and the methodNames slot becomes undefined). -/
def effectiveArgs (methodNames0 options0 : JSArg) : JSArg × JSArg :=
  if !(truthy options0) && truthy methodNames0 && !(isArray methodNames0)
  then (JSArg.undef, methodNames0)
  else (methodNames0, options0)

/-- Lines 89-103 of conformOptions, for an options value that passed the
line-88 shape check (so it is a plain object): clone it, store a truthy
positional methodNames onto the clone (line 91), reject a truthy non-array
methodNames slot (line 92), then default each of the three function slots
and reject truthy non-function values (lines 94-101). -/
def conformObjOptions (methodNames : JSArg) (ob0 : OptionsObj) : Except String ConformedOptions :=
  let ob1 := cloneOptions ob0
  let ob2 :=
    if truthy methodNames
    then { ob1 with methodNames := toMNField methodNames }
    else ob1
  if mnTruthy ob2.methodNames && !(mnIsArray ob2.methodNames) then
    Except.error "Optional methodNames should be an array if provided"
  else
    let w := withDefault ob2.wrapper promiseCoroutine
    if fnTruthy w && !(fnIsFn w) then
      Except.error "Optional wrapper should be a function if provided"
    else
      let aw := withDefault ob2.asyncWrapper promiseMethod
      if fnTruthy aw && !(fnIsFn aw) then
        Except.error "Optional asyncWrapper should be a function if provided"
      else
        let c := withDefault ob2.asyncWrapCondition defaultWrapCondition
        if fnTruthy c && !(fnIsFn c) then
          Except.error "Optional asyncWrapCondition should be a function if provided"
        else
          Except.ok
            { methodNames := mnToOption ob2.methodNames
              wrapper := fnToOption w
              asyncWrapper := fnToOption aw
              asyncWrapCondition := fnToOption c }

/-- Line 88 of conformOptions plus the rest of the pipeline.  The options
value reaching this point is either a defaulted `{}` or a truthy caller
value; for such values, the constructors other than `obj` are exactly those
the line-88 test (`typeof options != "object" || options instanceof Array ||
options instanceof Date`) rejects. -/
def conformShapedOptions (methodNames : JSArg) (options : JSArg) : Except String ConformedOptions :=
  match options with
  | JSArg.obj ob0 => conformObjOptions methodNames ob0
  | _ => Except.error "Optional options should be an object if provided"

/-- conformOptions (src/index.js lines 81-104): resolve the polymorphic
second argument (lines 82-85), default a falsy options value to `{}`
(line 87), then validate the shape and conform the fields (lines 88-103). -/
def conformOptions (methodNames0 options0 : JSArg) : Except String ConformedOptions :=
  let mo := effectiveArgs methodNames0 options0
  conformShapedOptions mo.1 (if !(truthy mo.2) then JSArg.obj emptyOptionsObj else mo.2)

/-- _actualMethodKeys (src/index.js lines 149-156): own property names whose
descriptor has neither getter nor setter, restricted to those whose current
value is a function. -/
def _actualMethodKeys (target : Target) : List String :=
  ((target.map Prod.fst).filter fun key =>
      match getProp target key with
      | some attr => !(hasGetter attr.desc) && !(hasSetter attr.desc)
      | none => false).filter fun key =>
      match getProp target key with
      | some attr => isFuncVal (propRead attr.desc)
      | none => false

/-- The two skip guards of the forEach body (src/index.js lines 135-139):
with an explicit list, skip keys not in the list (`indexOf === -1`);
otherwise skip plain functions for which a present naming predicate returns
false.  A falsy (`none`) predicate disables the filter entirely. -/
def shouldSkip (options : ConformedOptions) (target : Target) (isStatic : Bool)
    (key : String) (isGeneratorFunction : Bool) : Bool :=
  match options.methodNames with
  | some methodNames => !(methodNames.contains (ArrElem.str key))
  | none =>
    !isGeneratorFunction &&
      (match options.asyncWrapCondition with
       | some cond => !(cond key target isStatic)
       | none => false)

/-- One iteration of the forEach body of wrapFunctions (src/index.js lines
132-146) at a given key: read `target[key]`, test the skip guards, and
replace the property with the applicable transformer's output when one is
present (lines 141-145).  Keys always come from `_actualMethodKeys`, so the
value read is a data-property function. -/
def wrapOne (options : ConformedOptions) (isStatic : Bool) (target : Target)
    (key : String) : Target :=
  match getProp target key with
  | some attr =>
    match attr.desc with
    | PropDesc.data (JsVal.func f) =>
      if shouldSkip options target isStatic key f.isGenerator then target
      else if f.isGenerator then
        match options.wrapper with
        | some wrapper => setProp target key (JsVal.func (wrapper f))
        | none => target
      else
        match options.asyncWrapper with
        | some asyncWrapper => setProp target key (JsVal.func (asyncWrapper f))
        | none => target
    | _ => target
  | none => target

/-- wrapFunctions (src/index.js lines 131-147): left fold of the forEach body
over `_actualMethodKeys(target)`, threading the mutated target. -/
def wrapFunctions (target : Target) (options : ConformedOptions) (isStatic : Bool) : Target :=
  (_actualMethodKeys target).foldl (wrapOne options isStatic) target

/-- A class value: its own (static) property table and its prototype's own
property table. -/
structure Klass where
  statics : Target
  proto : Target

/-- wrap (src/index.js lines 17-22): conform the arguments, then rewrite the
static target (isStatic = true) and the prototype target (isStatic = false).
The pair returns the resulting class state together with the raised error, if
any; on an error the class is returned as it was when the error was raised. -/
def wrap (klass : Klass) (methodNames options : JSArg) : Klass × Option String :=
  match conformOptions methodNames options with
  | Except.error e => (klass, some e)
  | Except.ok opts =>
    ({ statics := wrapFunctions klass.statics opts true
       proto := wrapFunctions klass.proto opts false }, none)

/-- wrapStaticMethods (src/index.js lines 37-41). -/
def wrapStaticMethods (klass : Klass) (methodNames options : JSArg) : Klass × Option String :=
  match conformOptions methodNames options with
  | Except.error e => (klass, some e)
  | Except.ok opts =>
    ({ klass with statics := wrapFunctions klass.statics opts true }, none)

/-- wrapInstanceMethods (src/index.js lines 60-64). -/
def wrapInstanceMethods (klass : Klass) (methodNames options : JSArg) : Klass × Option String :=
  match conformOptions methodNames options with
  | Except.error e => (klass, some e)
  | Except.ok opts =>
    ({ klass with proto := wrapFunctions klass.proto opts false }, none)

/-! ## Specification-side notions used to state the claims -/

/-- Apply a possibly-disabled transformer: a present transformer rewrites the
function, an absent (`null`) one leaves it alone. -/
def applyW : Option (JsFunc → JsFunc) → JsFunc → JsFunc
  | some w, f => w f
  | none, f => f

/-- The transformer a selected candidate receives: the generator transformer
for generator-style functions, the plain transformer otherwise. -/
def applyTransform (o : ConformedOptions) (f : JsFunc) : JsFunc :=
  if f.isGenerator then applyW o.wrapper f else applyW o.asyncWrapper f

/-- The selection policy, as the spec states it: with an explicit list,
membership decides; without one, generator-style candidates are always
selected and plain candidates are selected exactly when the naming predicate
says so (a disabled predicate selects everything). -/
def selectsAt (o : ConformedOptions) (t : Target) (s : Bool) (k : String) (f : JsFunc) : Bool :=
  match o.methodNames with
  | some names => names.contains (ArrElem.str k)
  | none =>
    f.isGenerator ||
      (match o.asyncWrapCondition with
       | some cond => cond k t s
       | none => true)

/-- The configured naming predicate, if any, does not depend on the target
object it is handed (the source hands it the live, partially rewritten
target; all predicates of interest — the default and the documented
examples — read only the name). -/
def condInsensitive (o : ConformedOptions) : Prop :=
  ∀ cond, o.asyncWrapCondition = some cond →
    ∀ (k : String) (t t' : Target) (s : Bool), cond k t s = cond k t' s

/-- The conformed options produced when neither methodNames nor options is
supplied: no explicit list, bluebird coroutine for generators, bluebird
method for plain functions, and the suffix-"Async" naming predicate. -/
def defaultConformed : ConformedOptions :=
  { methodNames := none
    wrapper := some promiseCoroutine
    asyncWrapper := some promiseMethod
    asyncWrapCondition := some defaultWrapCondition }

/-- The original claim's notion of a well-formed methodNames argument: a list
whose elements are all strings. -/
def isStringList : JSArg → Bool
  | JSArg.arr es =>
    es.all fun e =>
      match e with
      | ArrElem.str _ => true
      | ArrElem.nonstr _ => false
  | _ => false

/-- Whether a call raised an InvalidArgument error. -/
def isErr {α : Type} : Except String α → Bool
  | Except.error _ => true
  | Except.ok _ => false

/-- An options-shaped value that is supplied (truthy) but is not a plain
structured value: an array, a date, or a non-object type. -/
def invalidOptionsShape (x : JSArg) : Bool :=
  truthy x && (!(typeofIsObject x) || isArray x || isDate x)

/-- A transformer/predicate slot that is present and truthy but not
callable (absent slots receive callable defaults; null and other falsy
values are accepted and disable the feature). -/
def invalidFnField {α : Type} : FnField α → Bool
  | FnField.junk t => t
  | _ => false

/-- A supplied (truthy) methodNames value — positional, or else the options
field — that is not an array; element types are never inspected. -/
def invalidMethodNames (mnArg : JSArg) (ob : OptionsObj) : Bool :=
  if truthy mnArg then !(isArray mnArg)
  else
    match ob.methodNames with
    | MNField.junk t => t
    | _ => false

/-- The amended error condition at the point where the options value has
been resolved and defaulted: a non-plain options shape, or (for a plain
object) a bad methodNames value or a truthy non-callable function slot. -/
def raisesShaped (mnArg : JSArg) (opt : JSArg) : Bool :=
  invalidOptionsShape opt ||
    (match opt with
     | JSArg.obj ob =>
       invalidMethodNames mnArg ob || invalidFnField ob.wrapper ||
         invalidFnField ob.asyncWrapper || invalidFnField ob.asyncWrapCondition
     | _ => false)

/-- The amended claim's characterization of exactly when
wrap/wrapStaticMethods/wrapInstanceMethods raise InvalidArgument, stated on
the raw arguments: resolve the polymorphic second argument, default a falsy
options value to the empty object, then test the three error families. -/
def raisesInvalidArgument (methodNames0 options0 : JSArg) : Bool :=
  let p := effectiveArgs methodNames0 options0
  raisesShaped p.1 (if !(truthy p.2) then JSArg.obj emptyOptionsObj else p.2)

/-! ## Sample data for concrete witnesses -/

/-- A plain function returning its argument synchronously. -/
def samplePlainFn (n : Nat) : JsFunc :=
  { id := n, isGenerator := false
    call := fun x => CallResult.ret x
    gen := fun _ => GenBody.ret 0 }

/-- A plain function that throws synchronously. -/
def sampleThrowFn (n : Nat) : JsFunc :=
  { id := n, isGenerator := false
    call := fun _ => CallResult.thrown 7
    gen := fun _ => GenBody.ret 0 }

/-- A generator-style function that yields one resolved deferred value and
returns it. -/
def sampleGenFn (n : Nat) : JsFunc :=
  { id := n, isGenerator := true
    call := fun x => CallResult.ret x
    gen := fun x => GenBody.yieldp (Except.ok x) (fun v => GenBody.ret v) }

/-- A method slot as a class declaration produces it (non-enumerable). -/
def fnSlot (f : JsFunc) : PropAttr :=
  { enumerable := false, desc := PropDesc.data (JsVal.func f) }

/-- Static property table of a sample class modelled on the test fixture
FakeDataStore of src/test.js. -/
def sampleStatics : Target :=
  [("exampleSync", fnSlot (samplePlainFn 1)),
   ("examplePromiseAsync", fnSlot (samplePlainFn 2)),
   ("exampleAsync", fnSlot (sampleGenFn 3)),
   ("example", fnSlot (sampleGenFn 4))]

/-- Prototype property table of the sample class: the constructor slot, two
plain methods, a generator-style method, and a getter-only accessor. -/
def sampleProto : Target :=
  [("constructor", fnSlot (samplePlainFn 10)),
   ("keys", fnSlot (samplePlainFn 11)),
   ("getAsync", fnSlot (samplePlainFn 12)),
   ("setAsync", fnSlot (sampleGenFn 13)),
   ("size", { enumerable := false, desc := PropDesc.accessor (some (JsVal.nonfunc 0)) false })]

/-- The sample class. -/
def sampleKlass : Klass := { statics := sampleStatics, proto := sampleProto }

/-- The options object of the spec example
`wrap(klass, null, { asyncWrapCondition: (name) => name.startsWith("remote") })`. -/
def remoteCondObj : OptionsObj :=
  { emptyOptionsObj with
      asyncWrapCondition := FnField.fn (fun key _ _ => strStartsWith key "remote") }

/-- The conformed options that example produces. -/
def remoteConformed : ConformedOptions :=
  { defaultConformed with
      asyncWrapCondition := some (fun key _ _ => strStartsWith key "remote") }

/-- A target carrying a remote-prefixed plain method and a suffix-named one. -/
def remoteTarget : Target :=
  [("remoteFetch", fnSlot (samplePlainFn 21)),
   ("getAsync", fnSlot (samplePlainFn 22))]

/-- A target for the explicit-list example `wrap(klass, ["customMethod"])`:
a plain method lacking the default suffix next to one carrying it. -/
def customListTarget : Target :=
  [("customMethod", fnSlot (samplePlainFn 31)),
   ("otherAsync", fnSlot (samplePlainFn 32))]

/-- The conformed options of `wrap(klass, ["customMethod"])`. -/
def customListConformed : ConformedOptions :=
  { defaultConformed with methodNames := some [ArrElem.str "customMethod"] }

/-- Conformed options with the generator transformer explicitly disabled. -/
def wrapperNullConformed : ConformedOptions :=
  { defaultConformed with wrapper := none }

/-- Conformed options with the plain transformer explicitly disabled. -/
def asyncWrapperNullConformed : ConformedOptions :=
  { defaultConformed with asyncWrapper := none }

/-- Conformed options with the naming predicate explicitly disabled. -/
def condNullConformed : ConformedOptions :=
  { defaultConformed with asyncWrapCondition := none }

/-! ## Lookup lemmas -/

theorem getProp_cons_self (k : String) (a : PropAttr) (tl : List (String × PropAttr)) :
    getProp ((k, a) :: tl) k = some a := by
  simp [getProp]

theorem getProp_cons_ne (k1 k : String) (a : PropAttr) (tl : List (String × PropAttr))
    (h : k1 ≠ k) : getProp ((k1, a) :: tl) k = getProp tl k := by
  simp [getProp, h]

theorem getProp_setProp_ne (t : Target) (j k : String) (v : JsVal) (h : j ≠ k) :
    getProp (setProp t j v) k = getProp t k := by
  induction t with
  | nil => simp [setProp, getProp, h]
  | cons hd tl ih =>
    obtain ⟨k1, a⟩ := hd
    simp only [setProp]
    by_cases h1 : k1 = j
    · have hk1k : k1 ≠ k := by rw [h1]; exact h
      simp only [if_pos h1]
      rw [getProp_cons_ne _ _ _ _ hk1k, getProp_cons_ne _ _ _ _ hk1k]
    · simp only [if_neg h1]
      by_cases h2 : k1 = k
      · subst h2
        rw [getProp_cons_self, getProp_cons_self]
      · rw [getProp_cons_ne _ _ _ _ h2, getProp_cons_ne _ _ _ _ h2, ih]

theorem getProp_setProp_data (t : Target) (k : String) (attr : PropAttr) (w : JsVal) (v : JsVal)
    (hk : getProp t k = some attr) (hd : attr.desc = PropDesc.data w) :
    getProp (setProp t k v) k = some { attr with desc := PropDesc.data v } := by
  induction t with
  | nil => simp [getProp] at hk
  | cons hd' tl ih =>
    obtain ⟨k1, a⟩ := hd'
    by_cases h1 : k1 = k
    · subst h1
      rw [getProp_cons_self] at hk
      injection hk with hk
      subst hk
      simp [setProp, getProp, hd]
    · rw [getProp_cons_ne _ _ _ _ h1] at hk
      simp only [setProp, if_neg h1]
      rw [getProp_cons_ne _ _ _ _ h1, ih hk]

theorem mem_of_getProp_isSome (t : Target) (k : String) (a : PropAttr)
    (h : getProp t k = some a) : k ∈ t.map Prod.fst := by
  induction t with
  | nil => simp [getProp] at h
  | cons hd tl ih =>
    obtain ⟨k1, a1⟩ := hd
    by_cases h1 : k1 = k
    · subst h1; simp
    · simp only [getProp, if_neg h1] at h
      simp [ih h]

theorem getProp_isSome_of_mem (t : Target) (k : String) (h : k ∈ t.map Prod.fst) :
    ∃ a, getProp t k = some a := by
  induction t with
  | nil => simp at h
  | cons hd tl ih =>
    obtain ⟨k1, a1⟩ := hd
    by_cases h1 : k1 = k
    · subst h1; exact ⟨a1, by simp [getProp]⟩
    · simp only [List.map_cons, List.mem_cons] at h
      rcases h with h | h
      · exact absurd h.symm h1
      · obtain ⟨a, ha⟩ := ih h
        exact ⟨a, by simp [getProp, h1, ha]⟩

/-- Characterization of the candidate key set: exactly the own keys holding a
data-property function value, accessors and non-functions excluded, for
either value of the enumerability flag. -/
theorem mem_actualMethodKeys_iff (t : Target) (k : String) :
    k ∈ _actualMethodKeys t ↔
      ∃ (b : Bool) (f : JsFunc),
        getProp t k = some { enumerable := b, desc := PropDesc.data (JsVal.func f) } := by
  unfold _actualMethodKeys
  simp only [List.mem_filter]
  constructor
  · rintro ⟨⟨hmem, hacc⟩, hfn⟩
    cases hk : getProp t k with
    | none => rw [hk] at hfn; simp at hfn
    | some attr =>
      obtain ⟨en, d⟩ := attr
      cases d with
      | data v =>
        cases v with
        | func f => exact ⟨en, f, rfl⟩
        | nonfunc tag => rw [hk] at hfn; simp [propRead, isFuncVal] at hfn
      | accessor g st =>
        cases g with
        | none => rw [hk] at hfn; simp [propRead, isFuncVal] at hfn
        | some jv => rw [hk] at hacc; simp [hasGetter] at hacc
  · rintro ⟨b, f, hk⟩
    refine ⟨⟨mem_of_getProp_isSome t k _ hk, ?_⟩, ?_⟩
    · rw [hk]; simp [hasGetter, hasSetter]
    · rw [hk]; simp [propRead, isFuncVal]

theorem nodup_actualMethodKeys (t : Target) (h : nodupKeys t) :
    (_actualMethodKeys t).Nodup :=
  (h.filter _).filter _

/-! ## Rewrite-pass lemmas -/

theorem shouldSkip_eq_not_selectsAt (o : ConformedOptions) (t : Target) (s : Bool)
    (k : String) (f : JsFunc) :
    shouldSkip o t s k f.isGenerator = !(selectsAt o t s k f) := by
  unfold shouldSkip selectsAt
  cases hmn : o.methodNames with
  | some names => simp
  | none =>
    cases hc : o.asyncWrapCondition with
    | some cond => cases f.isGenerator <;> simp
    | none => cases f.isGenerator <;> simp

theorem getProp_wrapOne_self (o : ConformedOptions) (s : Bool) (t : Target) (k : String)
    (attr : PropAttr) (f : JsFunc)
    (hk : getProp t k = some attr) (hf : attr.desc = PropDesc.data (JsVal.func f)) :
    getProp (wrapOne o s t k) k =
      some { attr with desc := PropDesc.data (JsVal.func
        (if selectsAt o t s k f then applyTransform o f else f)) } := by
  have hskip := shouldSkip_eq_not_selectsAt o t s k f
  obtain ⟨en, d⟩ := attr
  simp only at hf
  subst hf
  cases hsel : selectsAt o t s k f with
  | false =>
    have hs : shouldSkip o t s k f.isGenerator = true := by rw [hskip, hsel]; rfl
    simp [wrapOne, hk, hs]
  | true =>
    have hs : shouldSkip o t s k f.isGenerator = false := by rw [hskip, hsel]; rfl
    cases hg : f.isGenerator with
    | true =>
      rw [hg] at hs
      cases hw : o.wrapper with
      | some w =>
        simp [wrapOne, hk, hs, hg, hw, applyTransform, applyW,
              getProp_setProp_data t k _ (JsVal.func f) (JsVal.func (w f)) hk rfl]
      | none => simp [wrapOne, hk, hs, hg, hw, applyTransform, applyW]
    | false =>
      rw [hg] at hs
      cases hw : o.asyncWrapper with
      | some w =>
        simp [wrapOne, hk, hs, hg, hw, applyTransform, applyW,
              getProp_setProp_data t k _ (JsVal.func f) (JsVal.func (w f)) hk rfl]
      | none => simp [wrapOne, hk, hs, hg, hw, applyTransform, applyW]

theorem wrapOne_eq_self_or_setProp (o : ConformedOptions) (s : Bool) (t : Target) (k : String) :
    wrapOne o s t k = t ∨ ∃ v, wrapOne o s t k = setProp t k v := by
  cases hk : getProp t k with
  | none => exact Or.inl (by simp [wrapOne, hk])
  | some attr =>
    obtain ⟨en, d⟩ := attr
    cases d with
    | accessor g st => exact Or.inl (by simp [wrapOne, hk])
    | data v =>
      cases v with
      | nonfunc tag => exact Or.inl (by simp [wrapOne, hk])
      | func f =>
        cases hs : shouldSkip o t s k f.isGenerator with
        | true => exact Or.inl (by simp [wrapOne, hk, hs])
        | false =>
          cases hg : f.isGenerator with
          | false =>
            rw [hg] at hs
            cases hw : o.asyncWrapper with
            | none => exact Or.inl (by simp [wrapOne, hk, hs, hg, hw])
            | some w => exact Or.inr ⟨JsVal.func (w f), by simp [wrapOne, hk, hs, hg, hw]⟩
          | true =>
            rw [hg] at hs
            cases hw : o.wrapper with
            | none => exact Or.inl (by simp [wrapOne, hk, hs, hg, hw])
            | some w => exact Or.inr ⟨JsVal.func (w f), by simp [wrapOne, hk, hs, hg, hw]⟩

theorem getProp_wrapOne_ne (o : ConformedOptions) (s : Bool) (t : Target) (j k : String)
    (h : j ≠ k) : getProp (wrapOne o s t j) k = getProp t k := by
  rcases wrapOne_eq_self_or_setProp o s t j with heq | ⟨v, heq⟩
  · rw [heq]
  · rw [heq, getProp_setProp_ne t j k v h]

theorem getProp_foldl_ne (o : ConformedOptions) (s : Bool) (ks : List String) (t : Target)
    (k : String) (h : ∀ j ∈ ks, j ≠ k) :
    getProp (ks.foldl (wrapOne o s) t) k = getProp t k := by
  induction ks generalizing t with
  | nil => rfl
  | cons j ks ih =>
    rw [List.foldl_cons,
        ih (wrapOne o s t j) (fun x hx => h x (List.mem_cons_of_mem _ hx)),
        getProp_wrapOne_ne o s t j k (h j (List.mem_cons_self _ _))]

theorem selectsAt_congr (o : ConformedOptions) (t t' : Target) (s : Bool) (k : String)
    (f : JsFunc)
    (hci : o.methodNames = none → f.isGenerator = false → condInsensitive o) :
    selectsAt o t' s k f = selectsAt o t s k f := by
  unfold selectsAt
  cases hmn : o.methodNames with
  | some names => rfl
  | none =>
    cases hg : f.isGenerator with
    | true => simp
    | false =>
      cases hc : o.asyncWrapCondition with
      | none => rfl
      | some cond => simp [hci hmn hg cond hc k t' t s]

/-- Master characterization of the rewrite pass at a function-valued key:
the function is replaced by the applicable transformer's output exactly when
the selection policy selects it, and is kept (same reference) otherwise;
enumerability and every other key are untouched. -/
theorem getProp_wrapFunctions (o : ConformedOptions) (s : Bool) (t : Target) (k : String)
    (attr : PropAttr) (f : JsFunc)
    (hnd : nodupKeys t)
    (hk : getProp t k = some attr) (hf : attr.desc = PropDesc.data (JsVal.func f))
    (hci : o.methodNames = none → f.isGenerator = false → condInsensitive o) :
    getProp (wrapFunctions t o s) k =
      some { attr with desc := PropDesc.data (JsVal.func
        (if selectsAt o t s k f then applyTransform o f else f)) } := by
  have hmem : k ∈ _actualMethodKeys t := by
    rw [mem_actualMethodKeys_iff]
    refine ⟨attr.enumerable, f, ?_⟩
    rw [hk]
    obtain ⟨en, d⟩ := attr
    simp only at hf
    simp [hf]
  have hnodup := nodup_actualMethodKeys t hnd
  obtain ⟨l1, l2, hsplit⟩ := List.append_of_mem hmem
  rw [hsplit, List.nodup_append] at hnodup
  obtain ⟨h1, h2, hdisj⟩ := hnodup
  have hkl1 : k ∉ l1 := fun hc => hdisj hc (List.mem_cons_self _ _)
  have hkl2 : k ∉ l2 := (List.nodup_cons.mp h2).1
  unfold wrapFunctions
  rw [hsplit, List.foldl_append, List.foldl_cons]
  have hgt1 : getProp (l1.foldl (wrapOne o s) t) k = some attr := by
    rw [getProp_foldl_ne o s l1 t k (fun j hj he => hkl1 (he ▸ hj)), hk]
  rw [getProp_foldl_ne o s l2 _ k (fun j hj he => hkl2 (he ▸ hj)),
      getProp_wrapOne_self o s _ k attr f hgt1 hf,
      selectsAt_congr o t _ s k f hci]

/-- When the applicable transformer is disabled, the forEach body leaves the
target untouched at that key, whatever the selection decision. -/
theorem wrapOne_disabled (o : ConformedOptions) (s : Bool) (t : Target) (k : String)
    (attr : PropAttr) (f : JsFunc)
    (hk : getProp t k = some attr) (hf : attr.desc = PropDesc.data (JsVal.func f))
    (hdis : (f.isGenerator = true ∧ o.wrapper = none) ∨
            (f.isGenerator = false ∧ o.asyncWrapper = none)) :
    wrapOne o s t k = t := by
  simp only [wrapOne, hk, hf]
  rcases hdis with ⟨hg, hw⟩ | ⟨hg, hw⟩ <;> simp [hg, hw]

/-- The rewrite pass preserves a function-valued key whose applicable
transformer is disabled. -/
theorem getProp_wrapFunctions_disabled (o : ConformedOptions) (s : Bool) (t : Target)
    (k : String) (attr : PropAttr) (f : JsFunc)
    (hnd : nodupKeys t)
    (hk : getProp t k = some attr) (hf : attr.desc = PropDesc.data (JsVal.func f))
    (hdis : (f.isGenerator = true ∧ o.wrapper = none) ∨
            (f.isGenerator = false ∧ o.asyncWrapper = none)) :
    getProp (wrapFunctions t o s) k = some attr := by
  have hmem : k ∈ _actualMethodKeys t := by
    rw [mem_actualMethodKeys_iff]
    refine ⟨attr.enumerable, f, ?_⟩
    rw [hk]
    obtain ⟨en, d⟩ := attr
    simp only at hf
    simp [hf]
  have hnodup := nodup_actualMethodKeys t hnd
  obtain ⟨l1, l2, hsplit⟩ := List.append_of_mem hmem
  rw [hsplit, List.nodup_append] at hnodup
  obtain ⟨h1, h2, hdisj⟩ := hnodup
  have hkl1 : k ∉ l1 := fun hc => hdisj hc (List.mem_cons_self _ _)
  have hkl2 : k ∉ l2 := (List.nodup_cons.mp h2).1
  unfold wrapFunctions
  rw [hsplit, List.foldl_append, List.foldl_cons]
  have hgt1 : getProp (l1.foldl (wrapOne o s) t) k = some attr := by
    rw [getProp_foldl_ne o s l1 t k (fun j hj he => hkl1 (he ▸ hj)), hk]
  rw [wrapOne_disabled o s _ k attr f hgt1 hf hdis,
      getProp_foldl_ne o s l2 _ k (fun j hj he => hkl2 (he ▸ hj)), hgt1]

/-- Any key that is not a candidate (absent, accessor, or non-function) is
untouched by the rewrite pass; no uniqueness assumption is needed. -/
theorem getProp_wrapFunctions_not_candidate (o : ConformedOptions) (s : Bool) (t : Target)
    (k : String) (hnc : k ∉ _actualMethodKeys t) :
    getProp (wrapFunctions t o s) k = getProp t k :=
  getProp_foldl_ne o s _ t k (fun j hj he => hnc (he ▸ hj))

/-- The rewrite pass preserves accessor properties, whatever the options. -/
theorem getProp_wrapFunctions_accessor (o : ConformedOptions) (s : Bool) (t : Target)
    (k : String) (attr : PropAttr) (g : Option JsVal) (st : Bool)
    (hk : getProp t k = some attr) (hf : attr.desc = PropDesc.accessor g st) :
    getProp (wrapFunctions t o s) k = some attr := by
  have hnc : k ∉ _actualMethodKeys t := by
    rw [mem_actualMethodKeys_iff]
    rintro ⟨b, f, hx⟩
    rw [hk] at hx
    injection hx with hx
    rw [hx] at hf
    simp at hf
  rw [getProp_wrapFunctions_not_candidate o s t k hnc, hk]

/-! ## Error-condition lemmas -/

theorem mnTruthy_toMNField (x : JSArg) : mnTruthy (toMNField x) = true := by
  cases x <;> rfl

theorem mnIsArray_toMNField (x : JSArg) : mnIsArray (toMNField x) = isArray x := by
  cases x <;> rfl

theorem fnBad_withDefault {α : Type} (fld : FnField α) (d : α) :
    (fnTruthy (withDefault fld d) && !(fnIsFn (withDefault fld d))) = invalidFnField fld := by
  cases fld with
  | absent => rfl
  | fn f => rfl
  | junk t => cases t <;> rfl

theorem isErr_ok {α : Type} (a : α) : isErr (Except.ok a : Except String α) = false := rfl

theorem isErr_error {α : Type} (m : String) :
    isErr (Except.error m : Except String α) = true := rfl

theorem isErr_ite {α : Type} (c : Bool) (m : String) (r : Except String α) :
    isErr (if c = true then Except.error m else r) = (c || isErr r) := by
  cases c <;> simp [isErr]

theorem conformObjOptions_errors_iff (mn : JSArg) (ob : OptionsObj) :
    isErr (conformObjOptions mn ob) =
      (invalidMethodNames mn ob || invalidFnField ob.wrapper ||
       invalidFnField ob.asyncWrapper || invalidFnField ob.asyncWrapCondition) := by
  obtain ⟨mnf, wf, awf, cf⟩ := ob
  cases htr : truthy mn with
  | true =>
    cases hia : isArray mn with
    | true =>
      simp only [conformObjOptions, cloneOptions, htr, hia, if_true,
        mnTruthy_toMNField, mnIsArray_toMNField, Bool.not_true, Bool.and_false,
        Bool.false_eq_true, if_false, isErr_ite, fnBad_withDefault, isErr_ok,
        Bool.or_false, invalidMethodNames]
      simp [Bool.or_assoc]
    | false =>
      simp only [conformObjOptions, cloneOptions, htr, hia, if_true,
        mnTruthy_toMNField, mnIsArray_toMNField, Bool.not_false, Bool.and_true,
        if_true, isErr_error, invalidMethodNames]
      simp
  | false =>
    cases mnf with
    | absent =>
      simp only [conformObjOptions, cloneOptions, htr, Bool.false_eq_true, if_false,
        mnTruthy, Bool.false_and, isErr_ite, fnBad_withDefault, isErr_ok,
        Bool.or_false, invalidMethodNames]
      simp [Bool.or_assoc]
    | arr es =>
      simp only [conformObjOptions, cloneOptions, htr, Bool.false_eq_true, if_false,
        mnTruthy, mnIsArray, Bool.not_true, Bool.and_false, isErr_ite,
        fnBad_withDefault, isErr_ok, Bool.or_false, invalidMethodNames]
      simp [Bool.or_assoc]
    | junk t =>
      cases t with
      | true =>
        simp only [conformObjOptions, cloneOptions, htr, Bool.false_eq_true, if_false,
          mnTruthy, mnIsArray, Bool.not_false, Bool.and_true, if_true, isErr_error,
          invalidMethodNames]
        simp
      | false =>
        simp only [conformObjOptions, cloneOptions, htr, Bool.false_eq_true, if_false,
          mnTruthy, Bool.false_and, isErr_ite, fnBad_withDefault, isErr_ok,
          Bool.or_false, invalidMethodNames]
        simp [Bool.or_assoc]

theorem conformOptions_errors_iff (mn0 o0 : JSArg) :
    isErr (conformOptions mn0 o0) = raisesInvalidArgument mn0 o0 := by
  unfold conformOptions raisesInvalidArgument
  rcases heff : effectiveArgs mn0 o0 with ⟨mn1, o1⟩
  cases htr : truthy o1 with
  | false =>
    simp only [htr, Bool.not_false, if_true]
    rw [show (conformShapedOptions mn1 (JSArg.obj emptyOptionsObj)) =
          conformObjOptions mn1 emptyOptionsObj from rfl]
    rw [conformObjOptions_errors_iff]
    simp [raisesShaped, invalidOptionsShape, typeofIsObject, isArray, isDate, truthy,
      emptyOptionsObj, invalidFnField]
  | true =>
    simp only [htr, Bool.not_true, Bool.false_eq_true, if_false]
    cases o1 with
    | undef => simp [truthy] at htr
    | nullv => simp [truthy] at htr
    | strv s => simp [conformShapedOptions, raisesShaped, invalidOptionsShape,
        typeofIsObject, isArray, isDate, isErr, htr]
    | numv n => simp [conformShapedOptions, raisesShaped, invalidOptionsShape,
        typeofIsObject, isArray, isDate, isErr, htr]
    | boolv b => simp [conformShapedOptions, raisesShaped, invalidOptionsShape,
        typeofIsObject, isArray, isDate, isErr, htr]
    | date => simp [conformShapedOptions, raisesShaped, invalidOptionsShape,
        typeofIsObject, isArray, isDate, isErr, truthy]
    | arr es => simp [conformShapedOptions, raisesShaped, invalidOptionsShape,
        typeofIsObject, isArray, isDate, isErr, truthy]
    | funcv => simp [conformShapedOptions, raisesShaped, invalidOptionsShape,
        typeofIsObject, isArray, isDate, isErr, truthy]
    | obj ob =>
      rw [show (conformShapedOptions mn1 (JSArg.obj ob)) = conformObjOptions mn1 ob from rfl]
      rw [conformObjOptions_errors_iff]
      simp [raisesShaped, invalidOptionsShape, typeofIsObject, isArray, isDate, truthy]

/-! ## Claim theorems -/

/-- C1: when no explicit method-name list is supplied (the conformed options
carry no list), the rewrite pass that wrap/wrapStaticMethods/
wrapInstanceMethods run over each Target selects every generator-style
candidate unconditionally, and selects a plain candidate exactly when the
configured naming predicate — invoked with the method name, the Target and
the static-vs-instance flag — returns true; with no arguments at all, the
conformed options use asyncWrapCondition, the suffix-"Async" test, as that
predicate. -/
theorem wrap_selects_by_naming_predicate_without_list
    (mn0 o0 : JSArg) (opts : ConformedOptions)
    (hconf : conformOptions mn0 o0 = Except.ok opts)
    (hmn : opts.methodNames = none)
    (cond : String → Target → Bool → Bool)
    (hcond : opts.asyncWrapCondition = some cond)
    (hins : ∀ (k : String) (t t' : Target) (s : Bool), cond k t s = cond k t' s)
    (t : Target) (s : Bool) (k : String) (attr : PropAttr) (f : JsFunc)
    (hnd : nodupKeys t)
    (hk : getProp t k = some attr) (hf : attr.desc = PropDesc.data (JsVal.func f)) :
    getProp (wrapFunctions t opts s) k =
      some { attr with desc := PropDesc.data (JsVal.func
        (if f.isGenerator then applyW opts.wrapper f
         else if cond k t s then applyW opts.asyncWrapper f else f)) } ∧
    conformOptions JSArg.undef JSArg.undef = Except.ok defaultConformed ∧
    defaultConformed.asyncWrapCondition = some defaultWrapCondition ∧
    (∀ (key : String) (tg : Target) (st : Bool),
      defaultWrapCondition key tg st = strEndsWith key "Async") := by
  refine ⟨?_, rfl, rfl, fun _ _ _ => rfl⟩
  have hci : opts.methodNames = none → f.isGenerator = false → condInsensitive opts := by
    intro _ _ c hc
    rw [hcond] at hc
    injection hc with hc
    subst hc
    exact hins
  rw [getProp_wrapFunctions opts s t k attr f hnd hk hf hci]
  have hsel : selectsAt opts t s k f = (f.isGenerator || cond k t s) := by
    unfold selectsAt
    rw [hmn, hcond]
  rw [hsel]
  cases hg : f.isGenerator with
  | true => simp [applyTransform, hg]
  | false => cases hc2 : cond k t s <;> simp [applyTransform, hg, hc2]

/-- C1 witness: under the remote-prefix predicate of the spec example, the
plain method "remoteFetch" is replaced by the plain transformer's output and
the suffix-named "getAsync" is left as it was. -/
theorem wrap_selects_by_naming_predicate_without_list_witness :
    getProp (wrapFunctions remoteTarget remoteConformed false) "remoteFetch" =
      some { enumerable := false
             desc := PropDesc.data (JsVal.func (promiseMethod (samplePlainFn 21))) } ∧
    getProp (wrapFunctions remoteTarget remoteConformed false) "getAsync" =
      some (fnSlot (samplePlainFn 22)) := by
  constructor
  · have h := (wrap_selects_by_naming_predicate_without_list
      JSArg.nullv (JSArg.obj remoteCondObj) remoteConformed rfl rfl
      (fun key _ _ => strStartsWith key "remote") rfl (fun _ _ _ _ => rfl)
      remoteTarget false "remoteFetch" (fnSlot (samplePlainFn 21)) (samplePlainFn 21)
      (by decide) rfl rfl).1
    exact h.trans (by rfl)
  · have h := (wrap_selects_by_naming_predicate_without_list
      JSArg.nullv (JSArg.obj remoteCondObj) remoteConformed rfl rfl
      (fun key _ _ => strStartsWith key "remote") rfl (fun _ _ _ _ => rfl)
      remoteTarget false "getAsync" (fnSlot (samplePlainFn 22)) (samplePlainFn 22)
      (by decide) rfl rfl).1
    exact h.trans (by rfl)

/-- C2: when an explicit method-name list is supplied (positionally or as
options.methodNames), a candidate is selected exactly when its name is a
member of the list, whether it is generator-style or plain and whatever its
suffix; and both the positional route and the options.methodNames route
conform to that list. -/
theorem wrap_selects_by_membership_with_list
    (mn0 o0 : JSArg) (opts : ConformedOptions)
    (hconf : conformOptions mn0 o0 = Except.ok opts)
    (names : List ArrElem) (hmn : opts.methodNames = some names)
    (t : Target) (s : Bool) (k : String) (attr : PropAttr) (f : JsFunc)
    (hnd : nodupKeys t)
    (hk : getProp t k = some attr) (hf : attr.desc = PropDesc.data (JsVal.func f)) :
    getProp (wrapFunctions t opts s) k =
      some { attr with desc := PropDesc.data (JsVal.func
        (if names.contains (ArrElem.str k) then applyTransform opts f else f)) } ∧
    (∀ ns : List ArrElem,
      conformOptions (JSArg.arr ns) JSArg.undef =
        Except.ok { defaultConformed with methodNames := some ns }) ∧
    (∀ ns : List ArrElem,
      conformOptions JSArg.undef
          (JSArg.obj { emptyOptionsObj with methodNames := MNField.arr ns }) =
        Except.ok { defaultConformed with methodNames := some ns }) := by
  refine ⟨?_, fun ns => rfl, fun ns => rfl⟩
  have hci : opts.methodNames = none → f.isGenerator = false → condInsensitive opts := by
    intro h
    rw [hmn] at h
    exact absurd h (by simp)
  rw [getProp_wrapFunctions opts s t k attr f hnd hk hf hci]
  have hsel : selectsAt opts t s k f = names.contains (ArrElem.str k) := by
    unfold selectsAt
    rw [hmn]
  rw [hsel]

/-- C2 witness: `wrap(klass, ["customMethod"])` wraps the listed instance
method lacking the default suffix and does not wrap the suffix-carrying
method absent from the list. -/
theorem wrap_selects_by_membership_with_list_witness :
    getProp (wrapFunctions customListTarget customListConformed false) "customMethod" =
      some { enumerable := false
             desc := PropDesc.data (JsVal.func (promiseMethod (samplePlainFn 31))) } ∧
    getProp (wrapFunctions customListTarget customListConformed false) "otherAsync" =
      some (fnSlot (samplePlainFn 32)) := by
  constructor
  · have h := (wrap_selects_by_membership_with_list
      (JSArg.arr [ArrElem.str "customMethod"]) JSArg.undef customListConformed rfl
      [ArrElem.str "customMethod"] rfl customListTarget false "customMethod"
      (fnSlot (samplePlainFn 31)) (samplePlainFn 31) (by decide) rfl rfl).1
    exact h.trans (by rfl)
  · have h := (wrap_selects_by_membership_with_list
      (JSArg.arr [ArrElem.str "customMethod"]) JSArg.undef customListConformed rfl
      [ArrElem.str "customMethod"] rfl customListTarget false "otherAsync"
      (fnSlot (samplePlainFn 32)) (samplePlainFn 32) (by decide) rfl rfl).1
    exact h.trans (by rfl)

/-- C3: whenever wrap, wrapStaticMethods or wrapInstanceMethods raise an
InvalidArgument error, the error is raised by the argument-conforming step
that runs before any property is touched, so the returned class state is
exactly the input class. -/
theorem invalid_argument_raised_before_mutation (klass : Klass) (mn0 o0 : JSArg) (e : String) :
    ((wrap klass mn0 o0).2 = some e → (wrap klass mn0 o0).1 = klass) ∧
    ((wrapStaticMethods klass mn0 o0).2 = some e →
      (wrapStaticMethods klass mn0 o0).1 = klass) ∧
    ((wrapInstanceMethods klass mn0 o0).2 = some e →
      (wrapInstanceMethods klass mn0 o0).1 = klass) := by
  unfold wrap wrapStaticMethods wrapInstanceMethods
  cases conformOptions mn0 o0 <;> simp

/-- C3 witness: `wrap(klass, "notAnArray")` raises and leaves the sample
class untouched. -/
theorem invalid_argument_raised_before_mutation_witness :
    (wrap sampleKlass (JSArg.strv "notAnArray") JSArg.undef).1 = sampleKlass ∧
    (wrap sampleKlass (JSArg.strv "notAnArray") JSArg.undef).2 =
      some "Optional options should be an object if provided" :=
  ⟨(invalid_argument_raised_before_mutation sampleKlass (JSArg.strv "notAnArray") JSArg.undef
      "Optional options should be an object if provided").1 rfl, rfl⟩

/-- C4 counterexample: an array containing a non-string is supplied as
methodNames — it is not a list of strings, yet no InvalidArgument is raised
(the code only tests `instanceof Array`, never the element types), so the
claimed "exactly when ... not a list of strings" condition is false. -/
theorem methodNames_string_check_counterexample :
    isStringList (JSArg.arr [ArrElem.nonstr 0]) = false ∧
    (wrap sampleKlass (JSArg.arr [ArrElem.nonstr 0]) JSArg.undef).2 = none :=
  ⟨rfl, rfl⟩

/-- C4 (amended): wrap/wrapStaticMethods/wrapInstanceMethods raise
InvalidArgument exactly when, after resolving the polymorphic second
argument, a truthy methodNames value (positional or options.methodNames) is
not an array (element types are never inspected; falsy values are ignored);
or a truthy options value is not a plain object (an array, a date, or a
non-object type); or any of wrapper/asyncWrapper/asyncWrapCondition is
supplied truthy but not callable.  In particular `wrap(klass, "notAnArray")`
raises InvalidArgument. -/
theorem invalid_argument_exact_condition (klass : Klass) (mn0 o0 : JSArg) :
    ((wrap klass mn0 o0).2.isSome = raisesInvalidArgument mn0 o0) ∧
    ((wrapStaticMethods klass mn0 o0).2.isSome = raisesInvalidArgument mn0 o0) ∧
    ((wrapInstanceMethods klass mn0 o0).2.isSome = raisesInvalidArgument mn0 o0) ∧
    (wrap klass (JSArg.strv "notAnArray") JSArg.undef).2.isSome = true := by
  refine ⟨?_, ?_, ?_, rfl⟩ <;>
  · rw [← conformOptions_errors_iff]
    simp only [wrap, wrapStaticMethods, wrapInstanceMethods]
    cases conformOptions mn0 o0 <;> simp [isErr]

/-- C5: properties whose descriptor is an accessor (getter/setter pair) are
never candidates and are never modified by wrap, wrapStaticMethods or
wrapInstanceMethods, for every combination of arguments. -/
theorem accessor_properties_never_modified (klass : Klass) (mn0 o0 : JSArg) (k : String)
    (attr : PropAttr) (g : Option JsVal) (st : Bool)
    (hf : attr.desc = PropDesc.accessor g st) :
    (getProp klass.statics k = some attr →
      getProp (wrap klass mn0 o0).1.statics k = some attr) ∧
    (getProp klass.proto k = some attr →
      getProp (wrap klass mn0 o0).1.proto k = some attr) ∧
    (getProp klass.statics k = some attr →
      getProp (wrapStaticMethods klass mn0 o0).1.statics k = some attr) ∧
    (getProp klass.proto k = some attr →
      getProp (wrapStaticMethods klass mn0 o0).1.proto k = some attr) ∧
    (getProp klass.statics k = some attr →
      getProp (wrapInstanceMethods klass mn0 o0).1.statics k = some attr) ∧
    (getProp klass.proto k = some attr →
      getProp (wrapInstanceMethods klass mn0 o0).1.proto k = some attr) := by
  unfold wrap wrapStaticMethods wrapInstanceMethods
  cases conformOptions mn0 o0 with
  | error e => simp
  | ok opts =>
    refine ⟨?_, ?_, ?_, ?_, ?_, ?_⟩ <;> intro hk <;>
      first
        | exact getProp_wrapFunctions_accessor opts _ _ k attr g st hk hf
        | exact hk

/-- C5 witness: the getter-only "size" accessor of the sample class is
unchanged by a default wrap. -/
theorem accessor_properties_never_modified_witness :
    getProp (wrap sampleKlass JSArg.undef JSArg.undef).1.proto "size" =
      some { enumerable := false
             desc := PropDesc.accessor (some (JsVal.nonfunc 0)) false } :=
  (accessor_properties_never_modified sampleKlass JSArg.undef JSArg.undef "size"
      { enumerable := false, desc := PropDesc.accessor (some (JsVal.nonfunc 0)) false }
      (some (JsVal.nonfunc 0)) false rfl).2.1 rfl

/-- C6: a function-valued own property that the selection policy does not
select (wrong name under the predicate, or absent from an explicit list) has
exactly the same value — the same function object — after the rewrite pass
as before it. -/
theorem non_selected_function_reference_identical
    (opts : ConformedOptions) (t : Target) (s : Bool) (k : String)
    (attr : PropAttr) (f : JsFunc) (hnd : nodupKeys t)
    (hci : opts.methodNames = none → condInsensitive opts)
    (hk : getProp t k = some attr) (hf : attr.desc = PropDesc.data (JsVal.func f))
    (hns : selectsAt opts t s k f = false) :
    getProp (wrapFunctions t opts s) k = some attr := by
  obtain ⟨en, d⟩ := attr
  simp only at hf
  subst hf
  have h := getProp_wrapFunctions opts s t k _ f hnd hk rfl (fun h1 _ => hci h1)
  rw [hns] at h
  simpa using h

/-- C6 witness: under default options the plain "keys" method keeps its
original function object, and under the explicit list ["customMethod"] the
unlisted "otherAsync" keeps its original function object. -/
theorem non_selected_function_reference_identical_witness :
    getProp (wrapFunctions sampleProto defaultConformed false) "keys" =
      some (fnSlot (samplePlainFn 11)) ∧
    getProp (wrapFunctions customListTarget customListConformed false) "otherAsync" =
      some (fnSlot (samplePlainFn 32)) := by
  constructor
  · exact non_selected_function_reference_identical defaultConformed sampleProto false
      "keys" (fnSlot (samplePlainFn 11)) (samplePlainFn 11) (by decide)
      (fun _ c hc => by cases hc; intro k t t' s; rfl) rfl rfl (by decide)
  · exact non_selected_function_reference_identical customListConformed customListTarget false
      "otherAsync" (fnSlot (samplePlainFn 32)) (samplePlainFn 32) (by decide)
      (fun h => by cases h) rfl rfl (by decide)

/-- C7: the candidate set inspected on a Target is exactly its own
properties — with either enumerability flag — excluding every property whose
descriptor defines a getter or setter, restricted to those currently holding
a function value. -/
theorem candidate_set_is_own_nonaccessor_functions (t : Target) (k : String) :
    k ∈ _actualMethodKeys t ↔
      ∃ (b : Bool) (f : JsFunc),
        getProp t k = some { enumerable := b, desc := PropDesc.data (JsVal.func f) } :=
  mem_actualMethodKeys_iff t k

/-- C8: the default plain transformer (bluebird Promise.method, modelled
from the spec) is what the default options install for plain candidates,
and invoking a function wrapped by it never throws synchronously and always
returns a deferred handle: a synchronous return value resolves the handle
and a synchronously thrown error rejects it. -/
theorem default_plain_transformer_never_throws :
    (conformOptions JSArg.undef JSArg.undef = Except.ok defaultConformed ∧
     defaultConformed.asyncWrapper = some promiseMethod) ∧
    ∀ (f : JsFunc) (x : Nat),
      (∃ r, (promiseMethod f).call x = CallResult.deferred r) ∧
      (∀ v, f.call x = CallResult.ret v →
        (promiseMethod f).call x = CallResult.deferred (Except.ok v)) ∧
      (∀ e, f.call x = CallResult.thrown e →
        (promiseMethod f).call x = CallResult.deferred (Except.error e)) := by
  refine ⟨⟨rfl, rfl⟩, fun f x => ⟨?_, fun v hv => ?_, fun e he => ?_⟩⟩
  · cases hc : f.call x with
    | ret v => exact ⟨Except.ok v, by simp [promiseMethod, hc]⟩
    | thrown e => exact ⟨Except.error e, by simp [promiseMethod, hc]⟩
    | deferred r => exact ⟨r, by simp [promiseMethod, hc]⟩
  · simp [promiseMethod, hv]
  · simp [promiseMethod, he]

/-- C8 witness: a wrapped synchronously-returning method resolves to its
return value, and a wrapped synchronously-throwing method rejects with its
error instead of throwing. -/
theorem default_plain_transformer_never_throws_witness :
    (promiseMethod (samplePlainFn 1)).call 5 = CallResult.deferred (Except.ok 5) ∧
    (promiseMethod (sampleThrowFn 2)).call 0 = CallResult.deferred (Except.error 7) :=
  ⟨(default_plain_transformer_never_throws.2 (samplePlainFn 1) 5).2.1 5 rfl,
   (default_plain_transformer_never_throws.2 (sampleThrowFn 2) 0).2.2 7 rfl⟩

/-- C9: with the generator transformer explicitly set to a null value, every
generator-style candidate keeps its original function object; with the plain
transformer explicitly set to a null value, every plain candidate keeps its
original function object; and conforming an options object with the
corresponding field null produces exactly those disabled configurations. -/
theorem null_transformer_leaves_candidates_unmodified
    (opts : ConformedOptions) (t : Target) (s : Bool) (k : String)
    (attr : PropAttr) (f : JsFunc) (hnd : nodupKeys t)
    (hk : getProp t k = some attr) (hf : attr.desc = PropDesc.data (JsVal.func f))
    (hdis : (f.isGenerator = true ∧ opts.wrapper = none) ∨
            (f.isGenerator = false ∧ opts.asyncWrapper = none)) :
    getProp (wrapFunctions t opts s) k = some attr ∧
    conformOptions JSArg.undef
        (JSArg.obj { emptyOptionsObj with wrapper := FnField.junk false }) =
      Except.ok wrapperNullConformed ∧
    conformOptions JSArg.undef
        (JSArg.obj { emptyOptionsObj with asyncWrapper := FnField.junk false }) =
      Except.ok asyncWrapperNullConformed :=
  ⟨getProp_wrapFunctions_disabled opts s t k attr f hnd hk hf hdis, rfl, rfl⟩

/-- C9 witness: with wrapper null the generator-style static "example" is
untouched, and with asyncWrapper null the plain "getAsync" is untouched. -/
theorem null_transformer_leaves_candidates_unmodified_witness :
    getProp (wrapFunctions sampleStatics wrapperNullConformed true) "example" =
      some (fnSlot (sampleGenFn 4)) ∧
    getProp (wrapFunctions sampleProto asyncWrapperNullConformed false) "getAsync" =
      some (fnSlot (samplePlainFn 12)) :=
  ⟨(null_transformer_leaves_candidates_unmodified wrapperNullConformed sampleStatics true
      "example" (fnSlot (sampleGenFn 4)) (sampleGenFn 4) (by decide) rfl rfl
      (Or.inl ⟨rfl, rfl⟩)).1,
   (null_transformer_leaves_candidates_unmodified asyncWrapperNullConformed sampleProto false
      "getAsync" (fnSlot (samplePlainFn 12)) (samplePlainFn 12) (by decide) rfl rfl
      (Or.inr ⟨rfl, rfl⟩)).1⟩

/-- C10: with the naming predicate explicitly set to a null value and no
explicit list, the naming filter is disabled entirely: every plain own
non-accessor function-valued property — whatever its name, including the
prototype's "constructor" slot — is selected and replaced by the plain
transformer's output; and conforming an options object with a null
asyncWrapCondition produces exactly that configuration. -/
theorem null_condition_selects_every_plain_method
    (mn0 o0 : JSArg) (opts : ConformedOptions)
    (hconf : conformOptions mn0 o0 = Except.ok opts)
    (hmn : opts.methodNames = none) (hcond : opts.asyncWrapCondition = none)
    (aw : JsFunc → JsFunc) (haw : opts.asyncWrapper = some aw)
    (t : Target) (s : Bool) (k : String) (attr : PropAttr) (f : JsFunc)
    (hnd : nodupKeys t) (hk : getProp t k = some attr)
    (hf : attr.desc = PropDesc.data (JsVal.func f)) (hg : f.isGenerator = false) :
    getProp (wrapFunctions t opts s) k =
      some { attr with desc := PropDesc.data (JsVal.func (aw f)) } ∧
    conformOptions JSArg.undef
        (JSArg.obj { emptyOptionsObj with asyncWrapCondition := FnField.junk false }) =
      Except.ok condNullConformed := by
  refine ⟨?_, rfl⟩
  have hci : opts.methodNames = none → f.isGenerator = false → condInsensitive opts := by
    intro _ _ c hc
    rw [hcond] at hc
    cases hc
  have h := getProp_wrapFunctions opts s t k attr f hnd hk hf hci
  have hsel : selectsAt opts t s k f = true := by
    unfold selectsAt
    rw [hmn, hcond, hg]
    rfl
  have htr : applyTransform opts f = aw f := by
    unfold applyTransform applyW
    rw [hg, haw]
    simp
  rw [hsel] at h
  simp only [if_pos] at h
  rw [htr] at h
  simpa using h

/-- C10 witness: with asyncWrapCondition null, both the prototype's
"constructor" slot and the suffix-less "keys" method are replaced by the
plain transformer's output. -/
theorem null_condition_selects_every_plain_method_witness :
    getProp (wrapFunctions sampleProto condNullConformed false) "constructor" =
      some { enumerable := false
             desc := PropDesc.data (JsVal.func (promiseMethod (samplePlainFn 10))) } ∧
    getProp (wrapFunctions sampleProto condNullConformed false) "keys" =
      some { enumerable := false
             desc := PropDesc.data (JsVal.func (promiseMethod (samplePlainFn 11))) } := by
  constructor
  · have h := (null_condition_selects_every_plain_method JSArg.undef
      (JSArg.obj { emptyOptionsObj with asyncWrapCondition := FnField.junk false })
      condNullConformed rfl rfl rfl promiseMethod rfl sampleProto false "constructor"
      (fnSlot (samplePlainFn 10)) (samplePlainFn 10) (by decide) rfl rfl rfl).1
    exact h.trans (by rfl)
  · have h := (null_condition_selects_every_plain_method JSArg.undef
      (JSArg.obj { emptyOptionsObj with asyncWrapCondition := FnField.junk false })
      condNullConformed rfl rfl rfl promiseMethod rfl sampleProto false "keys"
      (fnSlot (samplePlainFn 11)) (samplePlainFn 11) (by decide) rfl rfl rfl).1
    exact h.trans (by rfl)

end AsyncClass
